import Mathlib

/-!
Verification of the thermalright-trcc-linux device I/O core.

Shallow embedding of the Python sources:
  * `src/trcc/device_implementations.py` — SCSI LCD device configuration
    (RGB565 packing, pixel byte order, frame chunk plan);
  * `src/trcc/device_bulk.py` — bulk device PM/SUB → resolution routing;
  * `src/trcc/device_factory.py` — sender cache and factory;
  * `src/trcc/gif_animator.py` — `Theme.zt` animation reader;
  * `src/trcc/theme_io.py` — `.tr` theme archive import and the 7-bit
    length-prefixed string codec.

Byte streams are `List Nat` (each element one byte value); Python `int`
values read from the wire as `<i` are `Int` after two's-complement
interpretation.  Fallible reads return `Option`/`Except` mirroring the
exceptions (`struct.error`, `IndexError`, `ValueError`) of the source.
-/

namespace TRCC

/-! ## device_implementations.py — `LCDDeviceImplementation` -/

/-- Device state of `LCDDeviceImplementation`: `self.width`, `self.height`
and the optional detected FBL code (`self.fbl`, initially `None`). -/
structure LCDDevice where
  width : Nat
  height : Nat
  fbl : Option Nat
deriving DecidableEq

/-- `LCDDeviceImplementation.__init__` defaults: 320×320, `fbl = None`. -/
def LCDDevice.init : LCDDevice := { width := 320, height := 320, fbl := none }

/-- Pixel byte order marker: `'>'` (big-endian) or `'<'` (little-endian)
as used by `struct.pack`. -/
inductive ByteOrder where
  | be
  | le
deriving DecidableEq

/-- `LCDDeviceImplementation.pixel_byte_order`: returns `'>'` when
`(self.width, self.height) == (320, 320)`, else `'<'`.  The FBL value is
not consulted. -/
def pixel_byte_order (d : LCDDevice) : ByteOrder :=
  if (d.width, d.height) = (320, 320) then ByteOrder.be else ByteOrder.le

/-- The RGB565 packed value from `LCDDeviceImplementation.rgb_to_bytes`:
`((r & 0xF8) << 8) | ((g & 0xFC) << 3) | (b >> 3)`. -/
def rgb565 (r g b : Nat) : Nat :=
  ((r &&& 0xF8) <<< 8) ||| ((g &&& 0xFC) <<< 3) ||| (b >>> 3)

/-- `struct.pack('>H'/'<H', pixel)`: the two bytes of a 16-bit value in
the given byte order. -/
def packU16 : ByteOrder → Nat → List Nat
  | ByteOrder.be, p => [p / 256 % 256, p % 256]
  | ByteOrder.le, p => [p % 256, p / 256 % 256]

/-- `LCDDeviceImplementation.rgb_to_bytes`. -/
def rgb_to_bytes (d : LCDDevice) (r g b : Nat) : List Nat :=
  packU16 (pixel_byte_order d) (rgb565 r g b)

theorem rgb565_lt (r g b : Nat) (hr : r < 256) (hg : g < 256) (hb : b < 256) :
    rgb565 r g b < 65536 := by
  have h1 : r &&& 0xF8 < 256 := lt_of_le_of_lt (Nat.and_le_left) hr
  have h2 : g &&& 0xFC < 256 := lt_of_le_of_lt (Nat.and_le_left) hg
  have h3 : b >>> 3 < 32 := by
    have : b >>> 3 = b / 8 := by
      simp [Nat.shiftRight_eq_div_pow]
    omega
  have hB : (g &&& 0xFC) <<< 3 < 2 ^ 11 := by
    rw [Nat.shiftLeft_eq]
    norm_num
    omega
  have hb' : b >>> 3 < 2 ^ 11 := lt_trans h3 (by norm_num)
  have hor1 : (g &&& 0xFC) <<< 3 ||| (b >>> 3) < 2 ^ 16 :=
    lt_of_lt_of_le (Nat.or_lt_two_pow hB hb') (by norm_num)
  have hA : (r &&& 0xF8) <<< 8 < 2 ^ 16 := by
    rw [Nat.shiftLeft_eq]
    norm_num
    omega
  have hfin := Nat.or_lt_two_pow hA hor1
  unfold rgb565
  rw [Nat.or_assoc]
  simpa using hfin

/-- C1 (counterexample): the claim says the two-byte encoding is big-endian
iff the panel is 320×320 AND the device reports FBL 51 or 53.  The source
`pixel_byte_order` checks only the resolution: the default-constructed
device (320×320, `fbl = None`) encodes big-endian although its FBL is
neither 51 nor 53, refuting the claimed equivalence at a concrete input. -/
theorem pixel_byte_order_ignores_fbl :
    pixel_byte_order LCDDevice.init = ByteOrder.be ∧
    LCDDevice.init.fbl ≠ some 51 ∧ LCDDevice.init.fbl ≠ some 53 := by
  refine ⟨rfl, ?_, ?_⟩ <;> simp [LCDDevice.init]

/-- C1 (amended): the two-byte RGB565 encoding is big-endian iff the panel
resolution is 320×320 (the reported FBL is not consulted); the packed
16-bit value is `((r & 0xF8) << 8) | ((g & 0xFC) << 3) | (b >> 3)`, fits
in 16 bits for byte inputs, and is serialised high-byte-first exactly in
the big-endian case; pure red packs to 0xF800, pure green to 0x07E0 and
pure blue to 0x001F. -/
theorem rgb565_byte_order_amended (d : LCDDevice) :
    (pixel_byte_order d = ByteOrder.be ↔ (d.width, d.height) = (320, 320)) ∧
    rgb565 255 0 0 = 0xF800 ∧ rgb565 0 255 0 = 0x07E0 ∧ rgb565 0 0 255 = 0x001F ∧
    (∀ r g b, r < 256 → g < 256 → b < 256 →
      rgb565 r g b < 65536 ∧
      rgb_to_bytes d r g b =
        (if pixel_byte_order d = ByteOrder.be
          then [rgb565 r g b / 256, rgb565 r g b % 256]
          else [rgb565 r g b % 256, rgb565 r g b / 256])) := by
  refine ⟨?_, by decide, by decide, by decide, ?_⟩
  · unfold pixel_byte_order
    by_cases h : (d.width, d.height) = (320, 320) <;> simp [h]
  · intro r g b hr hg hb
    refine ⟨rgb565_lt r g b hr hg hb, ?_⟩
    unfold rgb_to_bytes packU16
    have hlt := rgb565_lt r g b hr hg hb
    have hmod : rgb565 r g b / 256 % 256 = rgb565 r g b / 256 := by
      apply Nat.mod_eq_of_lt
      omega
    cases pixel_byte_order d <;> simp [hmod]

/-- C1 (witness for the amended theorem), evaluated on the default device
and pure red. -/
theorem rgb565_byte_order_amended_witness :
    (pixel_byte_order LCDDevice.init = ByteOrder.be ↔
      (LCDDevice.init.width, LCDDevice.init.height) = (320, 320)) ∧
    rgb_to_bytes LCDDevice.init 255 0 0 = [0xF8, 0x00] := by
  have h := rgb565_byte_order_amended LCDDevice.init
  refine ⟨h.1, ?_⟩
  have h5 := (h.2.2.2.2 255 0 0 (by decide) (by decide) (by decide)).2
  rw [h5]
  decide

/-! ## device_scsi.py — frame chunk plan (spec-modelled)

`device_implementations.py` delegates `get_frame_chunks` to
`device_scsi._get_frame_chunks(width, height)`. -/

/-- 64 KiB chunk limit (`_CHUNK_SIZE`). -/
def _CHUNK_SIZE : Nat := 65536

/-- Base frame command word (`_FRAME_CMD_BASE = 0x15`). -/
def _FRAME_CMD_BASE : Nat := 0x15

/-- Modelled from the spec: `device_scsi._get_frame_chunks` is not among
the provided sources (only its callers in `device_implementations.py` and
its tests are).  Spec §3 "ChunkPlan" and §4.3.1: the `w*h*2` RGB565 frame
bytes are partitioned into consecutive segments of at most 64 KiB — full
64-KiB chunks followed by the remainder (if any).  This gives the list of
chunk byte lengths for a frame of `n` bytes. -/
def chunkSizes (n : Nat) : List Nat :=
  List.replicate (n / _CHUNK_SIZE) _CHUNK_SIZE ++
    (if n % _CHUNK_SIZE = 0 then [] else [n % _CHUNK_SIZE])

/-- Modelled from the spec: `device_scsi._get_frame_chunks(width, height)`
returns `[(cmd, size), ...]` where chunk `i` uses command
`_FRAME_CMD_BASE | (i << 24)` (spec §4.3.1). -/
def _get_frame_chunks (w h : Nat) : List (Nat × Nat) :=
  (chunkSizes (w * h * 2)).enum.map
    (fun p => (_FRAME_CMD_BASE ||| (p.1 <<< 24), p.2))

theorem chunkSizes_sum (n : Nat) : (chunkSizes n).sum = n := by
  simp only [chunkSizes, _CHUNK_SIZE]
  rw [List.sum_append, List.sum_replicate, smul_eq_mul]
  by_cases h : n % 65536 = 0
  · simp only [h, if_true, List.sum_nil]
    omega
  · simp only [h, if_false, List.sum_cons, List.sum_nil]
    omega

theorem chunkSizes_le (n : Nat) : ∀ s ∈ chunkSizes n, s ≤ _CHUNK_SIZE := by
  intro s hs
  unfold chunkSizes at hs
  rcases List.mem_append.mp hs with h | h
  · rw [List.eq_of_mem_replicate h]
  · by_cases hm : n % _CHUNK_SIZE = 0
    · simp [hm] at h
    · simp only [hm, if_false, List.mem_singleton] at h
      subst h
      exact le_of_lt (Nat.mod_lt _ (by simp [_CHUNK_SIZE]))

theorem enumFrom_map_snd {α : Type} (n : Nat) (l : List α) :
    (l.enumFrom n).map Prod.snd = l := by
  induction l generalizing n with
  | nil => rfl
  | cons a t ih => simp [List.enumFrom, ih]

/-- C2: for every resolution `(w, h)`, the SCSI frame chunk plan partitions
the frame exactly: the chunk byte lengths sum to `w * h * 2`, every chunk
length is at most 64 KiB, and the `i`-th chunk's command word is
`_FRAME_CMD_BASE | (i << 24)`. -/
theorem frame_chunks_partition (w h : Nat) :
    ((_get_frame_chunks w h).map Prod.snd).sum = w * h * 2 ∧
    (∀ c ∈ _get_frame_chunks w h, c.2 ≤ 65536) ∧
    (∀ i, ∀ hi : i < (_get_frame_chunks w h).length,
      ((_get_frame_chunks w h).get ⟨i, hi⟩).1 = _FRAME_CMD_BASE ||| (i <<< 24)) := by
  refine ⟨?_, ?_, ?_⟩
  · unfold _get_frame_chunks
    rw [List.map_map]
    have hcomp : (Prod.snd ∘ fun p : Nat × Nat =>
        (_FRAME_CMD_BASE ||| (p.1 <<< 24), p.2)) = Prod.snd := by
      funext p
      rfl
    rw [hcomp, List.enum, enumFrom_map_snd]
    exact chunkSizes_sum _
  · intro c hc
    unfold _get_frame_chunks at hc
    obtain ⟨p, hp, rfl⟩ := List.mem_map.mp hc
    have hmem : p.2 ∈ chunkSizes (w * h * 2) := by
      have := List.mem_enum_iff_get?.mp hp
      exact List.get?_mem this
    exact chunkSizes_le _ _ hmem
  · intro i hi
    unfold _get_frame_chunks at hi ⊢
    have hlen : i < (chunkSizes (w * h * 2)).enum.length := by
      simpa using hi
    rw [List.get_map]
    rw [List.get_enum]

/-- C2 (witness): the 320×320 plan, evaluated concretely — the first chunk
is a full 64 KiB with command `0x15` and is within the 64 KiB limit. -/
theorem frame_chunks_partition_witness :
    (0x15, 65536) ∈ _get_frame_chunks 320 320 ∧ (0x15, (65536 : Nat)).2 ≤ 65536 := by
  have h := frame_chunks_partition 320 320
  exact ⟨by decide, h.2.1 (0x15, 65536) (by decide)⟩

/-! ## device_factory.py — `DeviceSenderFactory`

The class-level dict `_senders: Dict[str, DeviceSender]` is an association
list with distinct keys; Python object identity of senders is modelled by
a fresh-id counter (`next`): each `create_sender` call yields a new object,
so each cached sender carries a distinct id. -/

/-- The attributes of a device-info object that `DeviceSenderFactory`
reads (`vid`, `pid`, `path`, `protocol`, `device_type`). -/
structure DeviceInfo where
  vid : Nat
  pid : Nat
  path : String
  protocol : String
  device_type : Nat
deriving DecidableEq

/-- One lowercase hex digit. -/
def hexDigit (n : Nat) : Char :=
  if n < 10 then Char.ofNat (48 + n) else Char.ofNat (87 + n)

/-- Hex digits of `n`, most significant first (empty for 0); the fuel
argument (structurally decreasing, initialised to `n ≥` the digit count)
makes the definition kernel-reducible. -/
def hexDigitsAux : Nat → Nat → List Char
  | 0, _ => []
  | fuel + 1, n =>
    if n = 0 then [] else hexDigitsAux fuel (n / 16) ++ [hexDigit (n % 16)]

/-- Hex digits of `n`, most significant first (empty for 0). -/
def hexDigits (n : Nat) : List Char := hexDigitsAux n n

/-- Python `f"{n:04x}"`: lowercase hex, zero-padded to at least 4 digits. -/
def hex4 (n : Nat) : String :=
  let ds := if n = 0 then ['0'] else hexDigits n
  String.mk (List.replicate (4 - ds.length) '0' ++ ds)

/-- `DeviceSenderFactory._device_key`: `f"{vid:04x}_{pid:04x}_{path}"`. -/
def _device_key (d : DeviceInfo) : String :=
  hex4 d.vid ++ "_" ++ hex4 d.pid ++ "_" ++ d.path

/-- The protocol-specific payload of a sender (`ScsiSender(path)` or
`HidSender(vid, pid, device_type)`). -/
inductive SenderKind where
  | scsi (path : String)
  | hid (vid pid device_type : Nat)
deriving DecidableEq

/-- A sender object: its payload plus an identity tag modelling Python
object identity (two `create_sender` calls never return the same object). -/
structure Sender where
  id : Nat
  kind : SenderKind
deriving DecidableEq

/-- The factory's mutable class state: the `_senders` cache plus the
fresh-id counter for newly constructed sender objects. -/
structure FactoryState where
  senders : List (String × Sender)
  next : Nat
deriving DecidableEq

/-- The empty cache. -/
def FactoryState.empty : FactoryState := { senders := [], next := 0 }

/-- Dict lookup on the association list. -/
def lookupKey (k : String) : List (String × Sender) → Option Sender
  | [] => none
  | (k', s) :: rest => if k' = k then some s else lookupKey k rest

/-- `DeviceSenderFactory.create_sender`: builds a `ScsiSender` for
protocol `'scsi'`, a `HidSender` for `'hid'`, and raises
`ValueError("Unknown protocol: ...")` otherwise.  `fresh` is the identity
of the newly allocated object. -/
def create_sender (d : DeviceInfo) (fresh : Nat) : Except String Sender :=
  if d.protocol = "scsi" then Except.ok ⟨fresh, SenderKind.scsi d.path⟩
  else if d.protocol = "hid" then
    Except.ok ⟨fresh, SenderKind.hid d.vid d.pid d.device_type⟩
  else Except.error ("Unknown protocol: " ++ d.protocol)

/-- `DeviceSenderFactory.get_sender`: returns the cached sender for the
device's key, creating and caching one when absent.  On a `ValueError`
from `create_sender` the state is returned unchanged (the dict assignment
never executes). -/
def get_sender (d : DeviceInfo) (st : FactoryState) :
    Except String Sender × FactoryState :=
  match lookupKey (_device_key d) st.senders with
  | some s => (Except.ok s, st)
  | none =>
    match create_sender d st.next with
    | Except.ok s =>
      (Except.ok s,
        { senders := st.senders ++ [(_device_key d, s)], next := st.next + 1 })
    | Except.error e => (Except.error e, st)

/-- `DeviceSenderFactory.remove_sender`: `self._senders.pop(key, None)`,
closing the removed sender (closing is I/O, not modelled). -/
def remove_sender (d : DeviceInfo) (st : FactoryState) : FactoryState :=
  { st with senders := st.senders.eraseP (fun p => p.1 = _device_key d) }

/-- `DeviceSenderFactory.close_all`: closes every sender and clears the
cache. -/
def close_all (st : FactoryState) : FactoryState :=
  { st with senders := [] }

/-- `DeviceSenderFactory.get_cached_count`. -/
def get_cached_count (st : FactoryState) : Nat :=
  st.senders.length

/-- Cache well-formedness: cached sender identities are pairwise distinct
and all below the fresh counter.  Holds for the empty cache and is
preserved by every factory operation. -/
def CacheWF (st : FactoryState) : Prop :=
  (st.senders.map (fun p => p.2.id)).Nodup ∧
  ∀ p ∈ st.senders, p.2.id < st.next

theorem cacheWF_empty : CacheWF FactoryState.empty := by
  constructor
  · exact List.nodup_nil
  · intro p hp
    simp [FactoryState.empty] at hp

theorem create_sender_id (d : DeviceInfo) (n : Nat) (s : Sender)
    (h : create_sender d n = Except.ok s) : s.id = n := by
  unfold create_sender at h
  by_cases h1 : d.protocol = "scsi"
  · simp [h1] at h
    rw [← h]
  · by_cases h2 : d.protocol = "hid"
    · simp [h1, h2] at h
      rw [← h]
    · simp [h1, h2] at h

theorem lookupKey_mem {k : String} {l : List (String × Sender)} {s : Sender}
    (h : lookupKey k l = some s) : (k, s) ∈ l := by
  induction l with
  | nil => simp [lookupKey] at h
  | cons p rest ih =>
    obtain ⟨pk, ps⟩ := p
    by_cases hk : pk = k
    · simp only [lookupKey, hk, if_true, Option.some_inj] at h
      subst hk
      subst h
      exact List.mem_cons_self _ _
    · simp only [lookupKey, hk, if_false] at h
      exact List.mem_cons_of_mem _ (ih h)

theorem lookupKey_append_some {k : String} {l : List (String × Sender)}
    {s : Sender} (h : lookupKey k l = none) (e : String × Sender) (he : e.1 = k)
    (hes : e.2 = s) : lookupKey k (l ++ [e]) = some s := by
  induction l with
  | nil =>
    obtain ⟨ek, es⟩ := e
    simp only [List.nil_append, lookupKey]
    simp only at he hes
    simp [he, hes]
  | cons p rest ih =>
    obtain ⟨pk, ps⟩ := p
    by_cases hk : pk = k
    · simp [lookupKey, hk] at h
    · simp only [lookupKey, hk, if_false] at h
      simp only [List.cons_append, lookupKey, hk, if_false]
      exact ih h

theorem lookupKey_append_ne {k k' : String} {l : List (String × Sender)}
    (e : String × Sender) (he : e.1 = k') (hkk : k ≠ k') :
    lookupKey k (l ++ [e]) = lookupKey k l := by
  induction l with
  | nil =>
    obtain ⟨ek, es⟩ := e
    simp only at he
    subst he
    simp only [List.nil_append, lookupKey]
    rw [if_neg (fun hh => hkk hh.symm)]
  | cons p rest ih =>
    obtain ⟨pk, ps⟩ := p
    by_cases hk : pk = k <;> simp [List.cons_append, lookupKey, hk, ih]

theorem cacheWF_get_sender {d : DeviceInfo} {st st' : FactoryState} {s : Sender}
    (hwf : CacheWF st) (h : get_sender d st = (Except.ok s, st')) : CacheWF st' := by
  unfold get_sender at h
  cases hlk : lookupKey (_device_key d) st.senders with
  | some s0 =>
    simp only [hlk] at h
    have hst : st = st' := congrArg Prod.snd h
    rw [← hst]
    exact hwf
  | none =>
    simp only [hlk] at h
    cases hcr : create_sender d st.next with
    | ok s1 =>
      simp only [hcr] at h
      have hid := create_sender_id d st.next s1 hcr
      have hst : FactoryState.mk (st.senders ++ [(_device_key d, s1)])
          (st.next + 1) = st' := congrArg Prod.snd h
      rw [← hst]
      constructor
      · rw [List.map_append, List.nodup_append]
        refine ⟨hwf.1, by simp, ?_⟩
        intro x hx
        simp only [List.map_cons, List.map_nil, List.mem_singleton]
        intro hxs
        obtain ⟨p, hp, hpx⟩ := List.mem_map.mp hx
        have hlt := hwf.2 p hp
        have hxs' : x = s1.id := hxs
        omega
      · intro p hp
        rcases List.mem_append.mp hp with hmem | hmem
        · exact lt_trans (hwf.2 p hmem) (Nat.lt_succ_self _)
        · simp only [List.mem_singleton] at hmem
          rw [hmem]
          show s1.id < st.next + 1
          omega
    | error e =>
      simp only [hcr] at h
      exact absurd (congrArg Prod.fst h) (by simp)

/-- Cached sender identities determine their entry: in a well-formed cache
two entries under different keys hold different sender objects. -/
theorem ids_nodup_inj {l : List (String × Sender)}
    (hnd : (l.map (fun p => p.2.id)).Nodup) {k1 k2 : String} {s1 s2 : Sender}
    (h1 : (k1, s1) ∈ l) (h2 : (k2, s2) ∈ l) (hid : s1.id = s2.id) :
    k1 = k2 ∧ s1 = s2 := by
  induction l with
  | nil => simp at h1
  | cons p rest ih =>
    simp only [List.map_cons, List.nodup_cons] at hnd
    rcases List.mem_cons.mp h1 with he1 | hm1 <;>
      rcases List.mem_cons.mp h2 with he2 | hm2
    · rw [← he2] at he1
      exact ⟨congrArg Prod.fst he1, congrArg Prod.snd he1⟩
    · exfalso
      apply hnd.1
      have : s2.id ∈ rest.map (fun p => p.2.id) :=
        List.mem_map.mpr ⟨(k2, s2), hm2, rfl⟩
      have hp : p.2.id = s2.id := by
        rw [← he1, hid]
      rw [hp]
      exact this
    · exfalso
      apply hnd.1
      have : s1.id ∈ rest.map (fun p => p.2.id) :=
        List.mem_map.mpr ⟨(k1, s1), hm1, rfl⟩
      have hp : p.2.id = s1.id := by
        rw [← he2, ← hid]
      rw [hp]
      exact this
    · exact ih hnd.2 hm1 hm2

/-- C3: from a well-formed cache, two successive `get_sender` calls return
the identical sender when the derived keys are equal and distinct senders
when the keys differ; after `close_all()` the cached count is 0. -/
theorem get_sender_cache_contract (d1 d2 : DeviceInfo)
    (st st1 st2 : FactoryState) (s1 s2 : Sender) (hwf : CacheWF st)
    (h1 : get_sender d1 st = (Except.ok s1, st1))
    (h2 : get_sender d2 st1 = (Except.ok s2, st2)) :
    (_device_key d1 = _device_key d2 → s2 = s1) ∧
    (_device_key d1 ≠ _device_key d2 → s1 ≠ s2) ∧
    get_cached_count (close_all st2) = 0 := by
  have hcached : lookupKey (_device_key d1) st1.senders = some s1 := by
    unfold get_sender at h1
    cases hlk : lookupKey (_device_key d1) st.senders with
    | some s0 =>
      simp only [hlk] at h1
      have hs : s0 = s1 := by
        have := congrArg Prod.fst h1
        simpa using this
      have hst : st = st1 := congrArg Prod.snd h1
      rw [← hst, hlk, hs]
    | none =>
      simp only [hlk] at h1
      cases hcr : create_sender d1 st.next with
      | ok s0 =>
        simp only [hcr] at h1
        have hs : s0 = s1 := by
          have := congrArg Prod.fst h1
          simpa using this
        have hst : FactoryState.mk (st.senders ++ [(_device_key d1, s0)])
            (st.next + 1) = st1 := congrArg Prod.snd h1
        rw [← hst]
        exact lookupKey_append_some hlk _ rfl hs
      | error e =>
        simp only [hcr] at h1
        exact absurd (congrArg Prod.fst h1) (by simp)
  refine ⟨?_, ?_, rfl⟩
  · intro hkey
    unfold get_sender at h2
    rw [← hkey] at h2
    simp only [hcached] at h2
    have := congrArg Prod.fst h2
    simpa using this.symm
  · intro hkey hne
    subst hne
    have hwf1 : CacheWF st1 := cacheWF_get_sender hwf h1
    unfold get_sender at h2
    cases hlk2 : lookupKey (_device_key d2) st1.senders with
    | some s0 =>
      simp only [hlk2] at h2
      have hs : s0 = s1 := by
        have := congrArg Prod.fst h2
        simpa using this
      rw [hs] at hlk2
      have hm1 := lookupKey_mem hcached
      have hm2 := lookupKey_mem hlk2
      exact hkey (ids_nodup_inj hwf1.1 hm1 hm2 rfl).1
    | none =>
      simp only [hlk2] at h2
      cases hcr : create_sender d2 st1.next with
      | ok s0 =>
        simp only [hcr] at h2
        have hs : s0 = s1 := by
          have := congrArg Prod.fst h2
          simpa using this
        have hid := create_sender_id d2 st1.next s0 hcr
        have hlt : s1.id < st1.next := hwf1.2 _ (lookupKey_mem hcached)
        rw [hs] at hid
        omega
      | error e =>
        simp only [hcr] at h2
        exact absurd (congrArg Prod.fst h2) (by simp)

/-- C3 (witness): a concrete run — two SCSI descriptors on distinct paths
from the empty cache. -/
theorem get_sender_cache_contract_witness :
    (_device_key ⟨0x87CD, 0x70DB, "sg0", "scsi", 1⟩ =
        _device_key ⟨0x87CD, 0x70DB, "sg0", "scsi", 1⟩ →
      (⟨0, SenderKind.scsi "sg0"⟩ : Sender) = ⟨0, SenderKind.scsi "sg0"⟩) ∧
    (_device_key ⟨0x87CD, 0x70DB, "sg0", "scsi", 1⟩ ≠
        _device_key ⟨0x87CD, 0x70DB, "sg0", "scsi", 1⟩ →
      (⟨0, SenderKind.scsi "sg0"⟩ : Sender) ≠ ⟨0, SenderKind.scsi "sg0"⟩) ∧
    get_cached_count (close_all
      (get_sender ⟨0x87CD, 0x70DB, "sg0", "scsi", 1⟩
        (get_sender ⟨0x87CD, 0x70DB, "sg0", "scsi", 1⟩ FactoryState.empty).2).2) = 0 := by
  have h := get_sender_cache_contract
    ⟨0x87CD, 0x70DB, "sg0", "scsi", 1⟩ ⟨0x87CD, 0x70DB, "sg0", "scsi", 1⟩
    FactoryState.empty
    (get_sender ⟨0x87CD, 0x70DB, "sg0", "scsi", 1⟩ FactoryState.empty).2
    (get_sender ⟨0x87CD, 0x70DB, "sg0", "scsi", 1⟩
      (get_sender ⟨0x87CD, 0x70DB, "sg0", "scsi", 1⟩ FactoryState.empty).2).2
    ⟨0, SenderKind.scsi "sg0"⟩ ⟨0, SenderKind.scsi "sg0"⟩
    cacheWF_empty (by rfl) (by rfl)
  exact h

/-- C9 (counterexample): the claim says `get_sender` raises `ValueError`
for every descriptor whose protocol is neither `'scsi'` nor `'hid'`.  The
cache key ignores the protocol, so after caching a sender for a SCSI
descriptor, a second descriptor with the same `(vid, pid, path)` but
protocol `'bulk'` hits the cache and is returned without any error. -/
theorem get_sender_unknown_protocol_cached_hit :
    (get_sender ⟨0x87AD, 0x70DB, "p1", "bulk", 2⟩
        (get_sender ⟨0x87AD, 0x70DB, "p1", "scsi", 1⟩ FactoryState.empty).2).1 =
      Except.ok ⟨0, SenderKind.scsi "p1"⟩ ∧
    (⟨0x87AD, 0x70DB, "p1", "bulk", 2⟩ : DeviceInfo).protocol ≠ "scsi" ∧
    (⟨0x87AD, 0x70DB, "p1", "bulk", 2⟩ : DeviceInfo).protocol ≠ "hid" := by
  refine ⟨by rfl, by decide, by decide⟩

/-- C9 (amended): for a descriptor whose protocol is neither `'scsi'` nor
`'hid'`, `get_sender` raises `ValueError("Unknown protocol: ...")` exactly
when the descriptor's derived key is not already cached, and in that case
the cache is left completely unchanged; when the key is cached (by an
earlier descriptor with the same `(vid, pid, path)`), the cached sender is
returned without an error and the cache is also unchanged. -/
theorem get_sender_unknown_protocol_amended (d : DeviceInfo) (st : FactoryState)
    (h1 : d.protocol ≠ "scsi") (h2 : d.protocol ≠ "hid") :
    (lookupKey (_device_key d) st.senders = none →
      get_sender d st =
        (Except.error ("Unknown protocol: " ++ d.protocol), st)) ∧
    (∀ s, lookupKey (_device_key d) st.senders = some s →
      get_sender d st = (Except.ok s, st)) := by
  constructor
  · intro hlk
    unfold get_sender
    rw [hlk]
    have hcr : create_sender d st.next =
        Except.error ("Unknown protocol: " ++ d.protocol) := by
      unfold create_sender
      rw [if_neg h1, if_neg h2]
    rw [hcr]
  · intro s hlk
    unfold get_sender
    rw [hlk]

/-- C9 (witness for the amended theorem): a `'bulk'` descriptor against
the empty cache errors and leaves the cache empty. -/
theorem get_sender_unknown_protocol_amended_witness :
    get_sender ⟨0x87AD, 0x70DB, "p1", "bulk", 2⟩ FactoryState.empty =
      (Except.error "Unknown protocol: bulk", FactoryState.empty) := by
  have h := get_sender_unknown_protocol_amended
    ⟨0x87AD, 0x70DB, "p1", "bulk", 2⟩ FactoryState.empty
    (by decide) (by decide)
  exact h.1 (by rfl)

theorem lookupKey_eraseP_ne {k k' : String} (l : List (String × Sender))
    (hne : k' ≠ k) :
    lookupKey k' (l.eraseP (fun p => p.1 = k)) = lookupKey k' l := by
  induction l with
  | nil => rfl
  | cons p rest ih =>
    obtain ⟨pk, ps⟩ := p
    by_cases hk : pk = k
    · rw [List.eraseP_cons_of_pos (by simp [hk])]
      simp only [lookupKey, fun hh => hne (hk ▸ hh : k' = k), if_neg]
      rw [if_neg (fun hh : pk = k' => hne (hk ▸ hh ▸ rfl))]
    · rw [List.eraseP_cons_of_neg (by simp [hk])]
      by_cases hk' : pk = k' <;> simp only [lookupKey, hk', if_true, if_false, ih]

theorem eraseP_of_lookupKey_none {k : String} (l : List (String × Sender))
    (h : lookupKey k l = none) : l.eraseP (fun p => p.1 = k) = l := by
  induction l with
  | nil => rfl
  | cons p rest ih =>
    obtain ⟨pk, ps⟩ := p
    by_cases hk : pk = k
    · simp [lookupKey, hk] at h
    · simp only [lookupKey, hk, if_false] at h
      rw [List.eraseP_cons_of_neg (by simp [hk])]
      rw [ih h]

/-- C10: `remove_sender(d)` changes at most the cache entry whose key is
`d`'s derived key — lookups of every other key are untouched — and when
`d`'s key is absent the call returns normally with the cache completely
unchanged. -/
theorem remove_sender_localised (d : DeviceInfo) (st : FactoryState)
    (k' : String) :
    (k' ≠ _device_key d →
      lookupKey k' (remove_sender d st).senders = lookupKey k' st.senders) ∧
    ((remove_sender d st).next = st.next) ∧
    (lookupKey (_device_key d) st.senders = none → remove_sender d st = st) := by
  refine ⟨?_, rfl, ?_⟩
  · intro hne
    unfold remove_sender
    exact lookupKey_eraseP_ne st.senders hne
  · intro hnone
    unfold remove_sender
    rw [eraseP_of_lookupKey_none st.senders hnone]

/-- C10 (witness): removing a never-cached device from a one-entry cache
leaves it untouched. -/
theorem remove_sender_localised_witness :
    lookupKey "0001_0002_a"
        (remove_sender ⟨3, 4, "b", "scsi", 1⟩
          ⟨[("0001_0002_a", ⟨0, SenderKind.scsi "a"⟩)], 1⟩).senders =
      lookupKey "0001_0002_a"
        (⟨[("0001_0002_a", ⟨0, SenderKind.scsi "a"⟩)], 1⟩ :
          FactoryState).senders ∧
    remove_sender ⟨3, 4, "b", "scsi", 1⟩
        ⟨[("0001_0002_a", ⟨0, SenderKind.scsi "a"⟩)], 1⟩ =
      ⟨[("0001_0002_a", ⟨0, SenderKind.scsi "a"⟩)], 1⟩ := by
  have h := remove_sender_localised ⟨3, 4, "b", "scsi", 1⟩
    ⟨[("0001_0002_a", ⟨0, SenderKind.scsi "a"⟩)], 1⟩ "0001_0002_a"
  exact ⟨h.1 (by decide), h.2.2 (by rfl)⟩

/-! ## device_bulk.py — PM/SUB → resolution routing

`_bulk_resolution` imports `pm_to_fbl` and `fbl_to_resolution` from
`core/models.py`, which is not among the provided sources; the two
pipeline functions are therefore abstracted as parameters.  The routing
logic itself is `device_bulk.py:45-54` verbatim. -/

/-- `_BULK_KNOWN_PMS` (device_bulk.py:38). -/
def _BULK_KNOWN_PMS : List Nat := [5, 7, 9, 10, 11, 12, 32, 64, 65]

/-- `_bulk_resolution(pm, sub)`: for known PM values (or `(PM=1, SUB ∈
{48, 49})`) route through the shared `pm_to_fbl` / `fbl_to_resolution`
pipeline; everything else defaults to `(480, 480)`. -/
def _bulk_resolution (pm_to_fbl : Nat → Nat → Nat)
    (fbl_to_resolution : Nat → Nat → Nat × Nat) (pm sub : Nat) : Nat × Nat :=
  if pm ∈ _BULK_KNOWN_PMS ∨ (pm = 1 ∧ (sub = 48 ∨ sub = 49)) then
    fbl_to_resolution (pm_to_fbl pm sub) pm
  else (480, 480)

/-- C7: for every `(PM, SUB)` pair in the known domain the bulk-device
resolution is computed via the shared `pm_to_fbl` then `fbl_to_resolution`
pipeline (whatever those table functions are); for every pair outside the
domain the resolution returned is 480×480. -/
theorem bulk_resolution_routing (f : Nat → Nat → Nat)
    (g : Nat → Nat → Nat × Nat) (pm sub : Nat) :
    (pm ∈ _BULK_KNOWN_PMS ∨ (pm = 1 ∧ (sub = 48 ∨ sub = 49)) →
      _bulk_resolution f g pm sub = g (f pm sub) pm) ∧
    (pm ∉ _BULK_KNOWN_PMS → ¬(pm = 1 ∧ (sub = 48 ∨ sub = 49)) →
      _bulk_resolution f g pm sub = (480, 480)) := by
  constructor
  · intro hdom
    unfold _bulk_resolution
    rw [if_pos hdom]
  · intro h1 h2
    unfold _bulk_resolution
    rw [if_neg (fun hor => hor.elim h1 h2)]

/-- C7 (witness): PM 5 routes through the pipeline, PM 2 defaults. -/
theorem bulk_resolution_routing_witness :
    _bulk_resolution (fun pm sub => pm + sub) (fun fbl pm => (fbl, pm)) 5 0 =
      (5, 5) ∧
    _bulk_resolution (fun pm sub => pm + sub) (fun fbl pm => (fbl, pm)) 2 0 =
      (480, 480) := by
  have h := bulk_resolution_routing (fun pm sub => pm + sub)
    (fun fbl pm => (fbl, pm)) 5 0
  have h2 := bulk_resolution_routing (fun pm sub => pm + sub)
    (fun fbl pm => (fbl, pm)) 2 0
  exact ⟨h.1 (by decide), h2.2 (by decide) (by decide)⟩

/-! ## theme_io.py — 7-bit length-prefixed string codec

Strings are represented by their UTF-8 byte sequences (`data =
s.encode('utf-8')` in the source); the codec itself never inspects the
text, only its byte length and raw bytes. -/

/-- The length bytes emitted by `ThemeIO._write_csharp_string`: while
`length >= 0x80` emit `(length & 0x7F) | 0x80` and shift right by 7; then
emit the final byte with the high bit clear. -/
def write7BitLen (length : Nat) : List Nat :=
  if _h : length ≥ 0x80 then
    ((length &&& 0x7F) ||| 0x80) :: write7BitLen (length >>> 7)
  else [length]
termination_by length
decreasing_by
  rw [Nat.shiftRight_eq_div_pow]
  omega

/-- `ThemeIO._write_csharp_string`: length prefix followed by the UTF-8
payload. -/
def write_csharp_string (data : List Nat) : List Nat :=
  write7BitLen data.length ++ data

/-- The length-prefix decoding loop of `ThemeIO._read_csharp_string`:
`length |= (b & 0x7F) << shift` per byte, stopping at the first byte whose
high bit is clear (`struct.error`/`None` on EOF). -/
def read7BitLen : List Nat → Nat → Nat → Option (Nat × List Nat)
  | [], _, _ => none
  | b :: rest, length, shift =>
    if b &&& 0x80 = 0 then some (length ||| ((b &&& 0x7F) <<< shift), rest)
    else read7BitLen rest (length ||| ((b &&& 0x7F) <<< shift)) (shift + 7)

/-- `ThemeIO._read_csharp_string`: decode the 7-bit length prefix, then
take that many payload bytes (`f.read(length)` returns what is available,
so fewer bytes at EOF are not an error; a zero length reads nothing). -/
def read_csharp_string (s : List Nat) : Option (List Nat × List Nat) :=
  match read7BitLen s 0 0 with
  | none => none
  | some (len, rest) => some (rest.take len, rest.drop len)

theorem and_127_lt (b : Nat) : b &&& 0x7F < 128 :=
  lt_of_le_of_lt Nat.and_le_right (by norm_num)

/-- Shifted-bit recombination: the 7 low bits placed at `shift` or-ed with
the remaining bits placed at `shift + 7` reassemble `L <<< shift`. -/
theorem seven_bit_recombine (L shift : Nat) :
    ((L &&& 0x7F) <<< shift) ||| ((L >>> 7) <<< (shift + 7)) = L <<< shift := by
  apply Nat.eq_of_testBit_eq
  intro i
  simp only [Nat.testBit_or, Nat.testBit_shiftLeft, Nat.testBit_and,
    Nat.testBit_shiftRight]
  by_cases hi : shift ≤ i
  · by_cases h7 : shift + 7 ≤ i
    · have hb : ¬ i - shift < 7 := by omega
      have hfalse : Nat.testBit 0x7F (i - shift) = false := by
        have : (0x7F : Nat) < 2 ^ (i - shift) := by
          calc (0x7F : Nat) < 2 ^ 7 := by norm_num
          _ ≤ 2 ^ (i - shift) := Nat.pow_le_pow_right (by norm_num) (by omega)
        exact Nat.testBit_lt_two_pow this
      have harith : 7 + (i - (shift + 7)) = i - shift := by omega
      simp [hi, h7, hfalse, harith, Bool.and_comm]
    · have hb : Nat.testBit 0x7F (i - shift) = true := by
        have hlt : i - shift < 7 := by omega
        interval_cases h : (i - shift) <;> decide
      simp [hi, h7, hb]
  · have h7 : ¬ shift + 7 ≤ i := by omega
    simp [hi, h7]

/-- Round trip of the length prefix, generalised over the read-loop
accumulator state. -/
theorem read7BitLen_write (L : Nat) : ∀ (tail : List Nat) (acc shift : Nat),
    read7BitLen (write7BitLen L ++ tail) acc shift =
      some (acc ||| (L <<< shift), tail) := by
  induction L using Nat.strong_induction_on with
  | _ L ih =>
    intro tail acc shift
    rw [write7BitLen]
    by_cases h : L ≥ 0x80
    · simp only [h, dif_pos, List.cons_append, read7BitLen]
      have hbit : ((L &&& 0x7F) ||| 0x80) &&& 0x80 ≠ 0 := by
        have : (((L &&& 0x7F) ||| 0x80) &&& 0x80).testBit 7 = true := by
          have h128 : Nat.testBit 0x80 7 = true := by decide
          simp [Nat.testBit_and, Nat.testBit_or, h128]
        intro hzero
        rw [hzero] at this
        simp at this
      rw [if_neg hbit]
      have hmask : ((L &&& 0x7F) ||| 0x80) &&& 0x7F = L &&& 0x7F := by
        apply Nat.eq_of_testBit_eq
        intro i
        simp only [Nat.testBit_and, Nat.testBit_or]
        by_cases hlt : i < 7
        · have h80 : Nat.testBit 0x80 i = false := by
            interval_cases i <;> decide
          simp [h80]
        · have h7f : Nat.testBit 0x7F i = false := by
            have : (0x7F : Nat) < 2 ^ i := by
              calc (0x7F : Nat) < 2 ^ 7 := by norm_num
              _ ≤ 2 ^ i := Nat.pow_le_pow_right (by norm_num) (by omega)
            exact Nat.testBit_lt_two_pow this
          simp [h7f]
      rw [hmask]
      have hdec : L >>> 7 < L := by
        rw [Nat.shiftRight_eq_div_pow]
        omega
      rw [ih (L >>> 7) hdec tail (acc ||| ((L &&& 0x7F) <<< shift)) (shift + 7)]
      rw [Nat.or_assoc, seven_bit_recombine]
    · simp only [h, dif_neg, List.cons_append, read7BitLen]
      have hbit : L &&& 0x80 = 0 := by
        apply Nat.eq_of_testBit_eq
        intro i
        simp only [Nat.testBit_and, Nat.zero_testBit]
        by_cases hi : i = 7
        · subst hi
          have : L < 2 ^ 7 := by omega
          simp [Nat.testBit_lt_two_pow this]
        · have h80 : Nat.testBit 0x80 i = false := by
            rw [show (0x80 : Nat) = 2 ^ 7 by norm_num]
            exact Nat.testBit_two_pow_of_ne (fun hh => hi hh.symm)
          simp [h80]
      rw [if_pos hbit]
      have hmask : L &&& 0x7F = L := by
        have hL : L < 2 ^ 7 := by omega
        apply Nat.eq_of_testBit_eq
        intro i
        simp only [Nat.testBit_and]
        by_cases hlt : i < 7
        · have h7f : Nat.testBit 0x7F i = true := by
            interval_cases i <;> decide
          simp [h7f]
        · have hfL : Nat.testBit L i = false := by
            have : L < 2 ^ i := lt_of_lt_of_le hL
              (Nat.pow_le_pow_right (by norm_num) (by omega))
            exact Nat.testBit_lt_two_pow this
          simp [hfL]
      rw [hmask]
      rfl

theorem or_128_and_128_ne_zero (x : Nat) : (x ||| 0x80) &&& 0x80 ≠ 0 := by
  have htb : ((x ||| 0x80) &&& 0x80).testBit 7 = true := by
    have h128 : Nat.testBit 0x80 7 = true := by decide
    simp [Nat.testBit_and, Nat.testBit_or, h128]
  intro hzero
  rw [hzero] at htb
  simp at htb

/-- C6: writing any string (represented by its UTF-8 byte sequence) with
the 7-bit continuation-byte length-prefixed encoder and reading it back
yields the same bytes and leaves the remaining stream intact; when the
UTF-8 length is at least 128 the first prefix byte has its high bit set
and the prefix bytes alone decode back to the length. -/
theorem csharp_string_roundtrip (data rest : List Nat) :
    read_csharp_string (write_csharp_string data ++ rest) = some (data, rest) ∧
    (128 ≤ data.length →
      (∃ b bs, write7BitLen data.length = b :: bs ∧ b &&& 0x80 ≠ 0) ∧
      read7BitLen (write7BitLen data.length) 0 0 = some (data.length, [])) := by
  constructor
  · unfold write_csharp_string read_csharp_string
    rw [List.append_assoc, read7BitLen_write data.length (data ++ rest) 0 0]
    simp only [Nat.zero_or, Nat.shiftLeft_zero]
    rw [List.take_left, List.drop_left]
  · intro hlen
    constructor
    · refine ⟨(data.length &&& 0x7F) ||| 0x80, write7BitLen (data.length >>> 7),
        ?_, or_128_and_128_ne_zero _⟩
      rw [write7BitLen]
      rw [dif_pos hlen]
    · have h := read7BitLen_write data.length [] 0 0
      rw [List.append_nil] at h
      simpa using h

/-- C6 (witness): a 130-byte payload — multi-byte prefix, exact round
trip, trailing stream preserved. -/
theorem csharp_string_roundtrip_witness :
    read_csharp_string (write_csharp_string (List.replicate 130 65) ++ [7]) =
      some (List.replicate 130 65, [7]) ∧
    read7BitLen (write7BitLen (List.replicate 130 65).length) 0 0 =
      some ((List.replicate 130 65).length, []) := by
  have h := csharp_string_roundtrip (List.replicate 130 65) [7]
  exact ⟨h.1, (h.2 (by simp)).2⟩

/-! ## gif_animator.py — `ThemeZtPlayer` (Theme.zt reader)

`struct.unpack` on a short `f.read(k)` raises `struct.error`, modelled by
`none`; a plain `f.read(k)` just returns the available bytes. -/

/-- Read one byte (`struct.unpack('B', f.read(1))`). -/
def readByte : List Nat → Option (Nat × List Nat)
  | [] => none
  | b :: rest => some (b, rest)

/-- Two's-complement interpretation of a 32-bit unsigned value. -/
def toSigned32 (n : Nat) : Int :=
  if n < 2 ^ 31 then (n : Int) else (n : Int) - 2 ^ 32

/-- Read a little-endian signed 32-bit integer
(`struct.unpack('<i', f.read(4))`). -/
def readI32LE : List Nat → Option (Int × List Nat)
  | b0 :: b1 :: b2 :: b3 :: rest =>
    some (toSigned32 (b0 % 256 + 256 * (b1 % 256) + 65536 * (b2 % 256) +
      16777216 * (b3 % 256)), rest)
  | _ => none

/-- The timestamp loop: `frame_count` iterations of
`struct.unpack('<i', f.read(4))` (`range` of a negative count is empty,
hence the `Nat` iteration count). -/
def readTimestamps : Nat → List Nat → Option (List Int × List Nat)
  | 0, s => some ([], s)
  | n + 1, s =>
    match readI32LE s with
    | none => none
    | some (t, s1) =>
      match readTimestamps n s1 with
      | none => none
      | some (ts, s2) => some (t :: ts, s2)

/-- The frame loop: per frame a size (`<i`) then `f.read(size)` — a
negative size makes Python's `read` consume the remaining stream, a short
read is not an error.  Frames are kept as raw JPEG blobs (decoding them
is delegated to PIL in the source). -/
def readFrames : Nat → List Nat → Option (List (List Nat) × List Nat)
  | 0, s => some ([], s)
  | n + 1, s =>
    match readI32LE s with
    | none => none
    | some (size, s1) =>
      let data := if size < 0 then s1 else s1.take size.toNat
      let s2 := if size < 0 then [] else s1.drop size.toNat
      match readFrames n s2 with
      | none => none
      | some (fs, s3) => some (data :: fs, s3)

/-- The delay loop of `ThemeZtPlayer.__init__` (faithful translation):
for each index `i`, the delay is the forward timestamp difference when
`i` is not last, else the last delay accumulated so far (42 when none);
each appended delay is clamped with `max(1, delay)`.  The structurally
decreasing fuel (initialised to `ts.length`, one unit per iteration)
keeps the definition kernel-reducible. -/
def delaysLoopAux : Nat → List Int → Nat → List Int → List Int
  | 0, _, _, acc => acc
  | fuel + 1, ts, i, acc =>
    if i < ts.length then
      delaysLoopAux fuel ts (i + 1) (acc ++
        [max 1 (if i < ts.length - 1 then ts.getD (i + 1) 0 - ts.getD i 0
                else acc.getLastD 42)])
    else acc

/-- `self.delays` as computed by `ThemeZtPlayer.__init__`. -/
def computeDelays (ts : List Int) : List Int :=
  delaysLoopAux ts.length ts 0 []

/-- The parsed `ThemeZtPlayer` state: `self.timestamps`, `self.frames`
(raw blobs), `self.frame_count = len(self.frames)` and `self.delays`. -/
structure ZtPlayer where
  timestamps : List Int
  frames : List (List Nat)
  frame_count : Nat
  delays : List Int

/-- `ThemeZtPlayer.__init__`: magic byte `0xDC` (else `ValueError`),
`frame_count` (`<i`), `frame_count` timestamps, `frame_count`
size-prefixed JPEG blobs; then `frame_count = len(frames)` and the delay
list are derived. -/
def themeZtInit (input : List Nat) : Option ZtPlayer :=
  match readByte input with
  | none => none
  | some (magic, s1) =>
    if magic ≠ 0xDC then none
    else
      match readI32LE s1 with
      | none => none
      | some (fc, s2) =>
        match readTimestamps fc.toNat s2 with
        | none => none
        | some (ts, s3) =>
          match readFrames fc.toNat s3 with
          | none => none
          | some (fs, _) =>
            some { timestamps := ts, frames := fs, frame_count := fs.length,
                   delays := computeDelays ts }

theorem readTimestamps_length {n : Nat} {s : List Nat} {ts : List Int}
    {r : List Nat} (h : readTimestamps n s = some (ts, r)) : ts.length = n := by
  induction n generalizing s ts r with
  | zero =>
    simp only [readTimestamps, Option.some_inj, Prod.mk.injEq] at h
    rw [← h.1]
    rfl
  | succ m ih =>
    simp only [readTimestamps] at h
    cases h1 : readI32LE s with
    | none => simp only [h1] at h; exact absurd h (by simp)
    | some p =>
      obtain ⟨t, s1⟩ := p
      simp only [h1] at h
      cases h2 : readTimestamps m s1 with
      | none => simp only [h2] at h; exact absurd h (by simp)
      | some q =>
        obtain ⟨ts0, s2⟩ := q
        simp only [h2, Option.some_inj, Prod.mk.injEq] at h
        have := ih h2
        rw [← h.1]
        simp [this]

theorem readFrames_length {n : Nat} {s : List Nat} {fs : List (List Nat)}
    {r : List Nat} (h : readFrames n s = some (fs, r)) : fs.length = n := by
  induction n generalizing s fs r with
  | zero =>
    simp only [readFrames, Option.some_inj, Prod.mk.injEq] at h
    rw [← h.1]
    rfl
  | succ m ih =>
    simp only [readFrames] at h
    cases h1 : readI32LE s with
    | none => simp only [h1] at h; exact absurd h (by simp)
    | some p =>
      obtain ⟨size, s1⟩ := p
      simp only [h1] at h
      cases h2 : readFrames m (if size < 0 then [] else s1.drop size.toNat) with
      | none => simp only [h2] at h; exact absurd h (by simp)
      | some q =>
        obtain ⟨fs0, s3⟩ := q
        simp only [h2, Option.some_inj, Prod.mk.injEq] at h
        have := ih h2
        rw [← h.1]
        simp [this]

/-- Proof-side unrolling of the delay loop: the delays still to be
produced from index `i` given that the last delay appended so far is
`last`. -/
def tailDelaysAux : Nat → List Int → Nat → Int → List Int
  | 0, _, _, _ => []
  | fuel + 1, ts, i, last =>
    if i < ts.length then
      if i < ts.length - 1 then
        max 1 (ts.getD (i + 1) 0 - ts.getD i 0) ::
          tailDelaysAux fuel ts (i + 1) (max 1 (ts.getD (i + 1) 0 - ts.getD i 0))
      else [max 1 last]
    else []

theorem tailDelaysAux_of_ge (fuel : Nat) (ts : List Int) (i : Nat) (last : Int)
    (h : ¬ i < ts.length) : tailDelaysAux fuel ts i last = [] := by
  cases fuel with
  | zero => rfl
  | succ m => simp [tailDelaysAux, h]

theorem delaysLoopAux_eq (ts : List Int) : ∀ (fuel i : Nat) (acc : List Int),
    ts.length - i ≤ fuel →
    delaysLoopAux fuel ts i acc = acc ++ tailDelaysAux fuel ts i (acc.getLastD 42) := by
  intro fuel
  induction fuel with
  | zero =>
    intro i acc h
    have : ¬ i < ts.length := by omega
    simp [delaysLoopAux, tailDelaysAux]
  | succ m ih =>
    intro i acc h
    by_cases hi : i < ts.length
    · simp only [delaysLoopAux, tailDelaysAux, hi, if_true]
      by_cases hlast : i < ts.length - 1
      · rw [if_pos hlast, if_pos hlast]
        rw [ih (i + 1) _ (by omega)]
        rw [List.getLastD_concat]
        simp [List.append_assoc]
      · rw [if_neg hlast, if_neg hlast]
        rw [ih (i + 1) _ (by omega)]
        rw [List.getLastD_concat]
        rw [tailDelaysAux_of_ge m ts (i + 1) _ (by omega)]
        simp
    · simp [delaysLoopAux, hi, tailDelaysAux_of_ge _ _ _ _ hi]

theorem tailDelaysAux_length (ts : List Int) : ∀ (fuel i : Nat) (last : Int),
    ts.length - i ≤ fuel →
    (tailDelaysAux fuel ts i last).length = ts.length - i := by
  intro fuel
  induction fuel with
  | zero =>
    intro i last h
    simp only [tailDelaysAux, List.length_nil]
    omega
  | succ m ih =>
    intro i last h
    by_cases hi : i < ts.length
    · simp only [tailDelaysAux, hi, if_true]
      by_cases hlast : i < ts.length - 1
      · rw [if_pos hlast]
        simp only [List.length_cons]
        rw [ih (i + 1) _ (by omega)]
        omega
      · rw [if_neg hlast]
        simp only [List.length_singleton]
        omega
    · rw [tailDelaysAux_of_ge _ _ _ _ hi]
      simp only [List.length_nil]
      omega

theorem tailDelaysAux_getD (ts : List Int) : ∀ (fuel j i : Nat) (last : Int),
    ts.length - i ≤ fuel → i + j + 1 < ts.length →
    (tailDelaysAux fuel ts i last).getD j 0 =
      max 1 (ts.getD (i + j + 1) 0 - ts.getD (i + j) 0) := by
  intro fuel
  induction fuel with
  | zero =>
    intro j i last hf hj
    omega
  | succ m ih =>
    intro j i last hf hj
    have hi : i < ts.length := by omega
    have hlast : i < ts.length - 1 := by omega
    simp only [tailDelaysAux, hi, hlast, if_true]
    cases j with
    | zero => simp
    | succ k =>
      simp only [List.getD_cons_succ]
      have := ih k (i + 1) (max 1 (ts.getD (i + 1) 0 - ts.getD i 0))
        (by omega) (by omega)
      rw [this]
      have e1 : i + 1 + k + 1 = i + (k + 1) + 1 := by omega
      have e2 : i + 1 + k = i + (k + 1) := by omega
      rw [e1, e2]

theorem max_one_idem (x : Int) : max 1 (max 1 x) = max 1 x :=
  max_eq_right (le_max_left 1 x)

theorem tailDelaysAux_last_eq (ts : List Int) : ∀ (fuel i : Nat) (last : Int),
    ts.length - i ≤ fuel → i + 1 < ts.length →
    (tailDelaysAux fuel ts i last).getD (ts.length - i - 1) 0 =
      (tailDelaysAux fuel ts i last).getD (ts.length - i - 2) 0 := by
  intro fuel
  induction fuel with
  | zero =>
    intro i last hf hj
    omega
  | succ m ih =>
    intro i last hf hj
    have hi : i < ts.length := by omega
    have hlast : i < ts.length - 1 := by omega
    simp only [tailDelaysAux, hi, hlast, if_true]
    by_cases hend : i + 2 < ts.length
    · have h1 : ts.length - i - 1 = (ts.length - (i + 1) - 1) + 1 := by omega
      have h2 : ts.length - i - 2 = (ts.length - (i + 1) - 2) + 1 := by omega
      rw [h1, h2, List.getD_cons_succ, List.getD_cons_succ]
      exact ih (i + 1) _ (by omega) (by omega)
    · have hieq : i + 2 = ts.length := by omega
      have h1 : ts.length - i - 1 = 1 := by omega
      have h2 : ts.length - i - 2 = 0 := by omega
      rw [h1, h2]
      have htail : tailDelaysAux m ts (i + 1)
          (max 1 (ts.getD (i + 1) 0 - ts.getD i 0)) =
          [max 1 (max 1 (ts.getD (i + 1) 0 - ts.getD i 0))] := by
        cases m with
        | zero => omega
        | succ m2 =>
          have hi1 : i + 1 < ts.length := by omega
          have hl1 : ¬ i + 1 < ts.length - 1 := by omega
          simp [tailDelaysAux, hi1, hl1]
      rw [htail, max_one_idem]
      simp

theorem computeDelays_length (ts : List Int) :
    (computeDelays ts).length = ts.length := by
  unfold computeDelays
  rw [delaysLoopAux_eq ts ts.length 0 [] (by omega)]
  simp only [List.nil_append, List.getLastD_nil]
  rw [tailDelaysAux_length ts ts.length 0 42 (by omega)]
  omega

theorem computeDelays_getD (ts : List Int) (i : Nat) (h : i + 1 < ts.length) :
    (computeDelays ts).getD i 0 = max 1 (ts.getD (i + 1) 0 - ts.getD i 0) := by
  unfold computeDelays
  rw [delaysLoopAux_eq ts ts.length 0 [] (by omega)]
  simp only [List.nil_append, List.getLastD_nil]
  have := tailDelaysAux_getD ts ts.length i 0 42 (by omega) (by omega)
  simpa using this

theorem computeDelays_last_eq (ts : List Int) (h : 2 ≤ ts.length) :
    (computeDelays ts).getD (ts.length - 1) 0 =
      (computeDelays ts).getD (ts.length - 2) 0 := by
  unfold computeDelays
  rw [delaysLoopAux_eq ts ts.length 0 [] (by omega)]
  simp only [List.nil_append, List.getLastD_nil]
  have := tailDelaysAux_last_eq ts ts.length 0 42 (by omega) (by omega)
  simpa using this

theorem computeDelays_single (ts : List Int) (h : ts.length = 1) :
    computeDelays ts = [42] := by
  unfold computeDelays
  rw [h]
  simp only [delaysLoopAux, h]
  norm_num

/-- C4: after successfully reading a `Theme.zt` stream, `frame_count`
equals the number of timestamps and the number of decoded frame blobs;
the delay of every non-final frame is the forward timestamp difference
clamped to at least 1 ms; the final frame's delay equals the previous
frame's delay, or 42 ms when there is a single frame. -/
theorem themeZt_reader_invariants (input : List Nat) (p : ZtPlayer)
    (h : themeZtInit input = some p) :
    p.frame_count = p.timestamps.length ∧
    p.frame_count = p.frames.length ∧
    p.delays.length = p.timestamps.length ∧
    (∀ i, i + 1 < p.timestamps.length →
      p.delays.getD i 0 =
        max 1 (p.timestamps.getD (i + 1) 0 - p.timestamps.getD i 0)) ∧
    (2 ≤ p.timestamps.length →
      p.delays.getD (p.timestamps.length - 1) 0 =
        p.delays.getD (p.timestamps.length - 2) 0) ∧
    (p.timestamps.length = 1 → p.delays = [42]) := by
  unfold themeZtInit at h
  cases hb : readByte input with
  | none => simp only [hb] at h; exact absurd h (by simp)
  | some q =>
    obtain ⟨magic, s1⟩ := q
    simp only [hb] at h
    by_cases hm : magic = 0xDC
    · rw [if_neg (by simp [hm] : ¬ (magic ≠ 0xDC))] at h
      cases hfc : readI32LE s1 with
      | none => simp only [hfc] at h; exact absurd h (by simp)
      | some q2 =>
        obtain ⟨fc, s2⟩ := q2
        simp only [hfc] at h
        cases hts : readTimestamps fc.toNat s2 with
        | none => simp only [hts] at h; exact absurd h (by simp)
        | some q3 =>
          obtain ⟨ts, s3⟩ := q3
          simp only [hts] at h
          cases hfs : readFrames fc.toNat s3 with
          | none => simp only [hfs] at h; exact absurd h (by simp)
          | some q4 =>
            obtain ⟨fs, s4⟩ := q4
            simp only [hfs, Option.some_inj] at h
            have hlts := readTimestamps_length hts
            have hlfs := readFrames_length hfs
            subst h
            refine ⟨by simp [hlts, hlfs], by simp, computeDelays_length ts,
              ?_, ?_, ?_⟩
            · intro i hi
              exact computeDelays_getD ts i hi
            · intro h2
              exact computeDelays_last_eq ts h2
            · intro h1
              exact computeDelays_single ts h1
    · rw [if_pos hm] at h
      exact absurd h (by simp)

/-- C4 (witness): a concrete two-frame `Theme.zt` byte stream — magic
`0xDC`, `frame_count = 2`, timestamps 0 and 100 ms, two one-byte JPEG
blobs — parsed and checked against the invariants. -/
theorem themeZt_reader_invariants_witness :
    (ZtPlayer.mk [0, 100] [[255], [170]] 2 [100, 100]).frame_count =
      (ZtPlayer.mk [0, 100] [[255], [170]] 2 [100, 100]).timestamps.length ∧
    (ZtPlayer.mk [0, 100] [[255], [170]] 2 [100, 100]).delays.getD 0 0 =
      max 1 ((ZtPlayer.mk [0, 100] [[255], [170]] 2 [100, 100]).timestamps.getD 1 0 -
        (ZtPlayer.mk [0, 100] [[255], [170]] 2 [100, 100]).timestamps.getD 0 0) := by
  have h := themeZt_reader_invariants
    [0xDC, 2, 0, 0, 0, 0, 0, 0, 0, 100, 0, 0, 0, 1, 0, 0, 0, 255, 1, 0, 0, 0, 170]
    (ZtPlayer.mk [0, 100] [[255], [170]] 2 [100, 100]) (by rfl)
  exact ⟨h.1, h.2.2.2.1 0 (by decide)⟩

/-- C8: opening a `Theme.zt` input whose first byte is not the magic
`0xDC` always fails (`ValueError`) and produces no frames. -/
theorem themeZt_bad_magic (b : Nat) (s : List Nat) (h : b ≠ 0xDC) :
    themeZtInit (b :: s) = none := by
  unfold themeZtInit
  simp only [readByte]
  rw [if_pos h]

/-- C8 (witness): an input starting with byte `0x00` fails. -/
theorem themeZt_bad_magic_witness :
    themeZtInit (0x00 :: [1, 2, 3]) = none :=
  themeZt_bad_magic 0x00 [1, 2, 3] (by decide)

/-! ## theme_io.py — `.tr` theme import (`ThemeIO.import_theme`)

The importer is modelled without the PIL image decoding side effects
(images are consumed as raw blobs and reflected in the `has_mask` /
`has_background` / `has_video` flags, mirroring the returned dict). -/

/-- One overlay element as read by `ThemeIO._read_element` (the `f32`
font size is kept as its four raw bytes; decoded strings are kept as
their UTF-8 bytes). -/
structure TrElement where
  mode : Int
  mode_sub : Int
  x : Int
  y : Int
  main_count : Int
  sub_count : Int
  font_name : List Nat
  font_size_raw : List Nat
  font_style : Nat
  color : Nat × Nat × Nat
  text : List Nat
deriving DecidableEq

/-- The dict returned by `ThemeIO.import_theme`. -/
structure TrResult where
  elements : List TrElement
  show_system_info : Bool
  show_background : Bool
  show_screenshot : Bool
  direction : Int
  ui_mode : Int
  mode : Int
  hide_screenshot_bg : Bool
  screenshot_rect : Int × Int × Int × Int
  show_mask : Bool
  mask_center : Int × Int
  has_background : Bool
  has_mask : Bool
  has_video : Bool
deriving DecidableEq

/-- The importer's initial `result` dict (theme_io.py:127-142). -/
def defaultTrResult : TrResult :=
  { elements := [], show_system_info := true, show_background := true,
    show_screenshot := false, direction := 0, ui_mode := 1, mode := 0,
    hide_screenshot_bg := true, screenshot_rect := (0, 0, 320, 320),
    show_mask := false, mask_center := (160, 160), has_background := false,
    has_mask := false, has_video := false }

/-- `struct.unpack('?', f.read(1))`: any non-zero byte is `True`. -/
def readBool (s : List Nat) : Option (Bool × List Nat) :=
  match readByte s with
  | none => none
  | some (b, rest) => some (b ≠ 0, rest)

/-- `struct.unpack` on `f.read(n)`: exactly `n` bytes or `struct.error`. -/
def readExact (n : Nat) (s : List Nat) : Option (List Nat × List Nat) :=
  if s.length < n then none else some (s.take n, s.drop n)

/-- `ThemeIO._read_element` (theme_io.py:256-273). -/
def readElement (s : List Nat) : Option (TrElement × List Nat) := do
  let (mode, s) ← readI32LE s
  let (mode_sub, s) ← readI32LE s
  let (x, s) ← readI32LE s
  let (y, s) ← readI32LE s
  let (main_count, s) ← readI32LE s
  let (sub_count, s) ← readI32LE s
  let (font_name, s) ← read_csharp_string s
  let (font_size_raw, s) ← readExact 4 s
  let (font_style, s) ← readByte s
  let s := s.drop 2
  let (cbytes, s) ← readExact 4 s
  let color := (cbytes.getD 1 0, cbytes.getD 2 0, cbytes.getD 3 0)
  let (text, s) ← read_csharp_string s
  some (⟨mode, mode_sub, x, y, main_count, sub_count, font_name,
    font_size_raw, font_style, color, text⟩, s)

/-- The overlay element loop of `ThemeIO.import_theme`. -/
def readElements : Nat → List Nat → Option (List TrElement × List Nat)
  | 0, s => some ([], s)
  | n + 1, s =>
    match readElement s with
    | none => none
    | some (e, s1) =>
      match readElements n s1 with
      | none => none
      | some (es, s2) => some (e :: es, s2)

/-- Background-marker dispatch at the end of `ThemeIO.import_theme`
(theme_io.py:186-196): `marker == 0` reads a static PNG length and blob;
`marker > 0` reads `marker` timestamps and size-prefixed frames into a
`Theme.zt` file; a negative marker reads nothing. -/
def readBackground (marker : Int) (s : List Nat) (base : TrResult) :
    Option TrResult :=
  if marker = 0 then
    match readI32LE s with
    | none => none
    | some (bg_len, _) => some { base with has_background := 0 < bg_len }
  else if 0 < marker then
    match readTimestamps marker.toNat s with
    | none => none
    | some (_, s2) =>
      match readFrames marker.toNat s2 with
      | none => none
      | some _ => some { base with has_video := true }
  else some base

/-- Display-state fields of `ThemeIO.import_theme`
(theme_io.py:163-168), assigned into the result record as read. -/
def importDisplayState (r : TrResult) (s0 : List Nat) :
    Option (TrResult × List Nat) := do
  let (sb, s) ← readBool s0
  let (ss, s) ← readBool s
  let (dir, s) ← readI32LE s
  let (um, s) ← readI32LE s
  let (md, s) ← readI32LE s
  let (hsb, s) ← readBool s
  some ({ r with
            show_background := sb, show_screenshot := ss, direction := dir,
            ui_mode := um, mode := md, hide_screenshot_bg := hsb }, s)

/-- Screenshot-rect and mask-center fields of `ThemeIO.import_theme`
(theme_io.py:169-174). -/
def importGeometry (r : TrResult) (s0 : List Nat) :
    Option (TrResult × List Nat) := do
  let (jx, s) ← readI32LE s0
  let (jy, s) ← readI32LE s
  let (jw, s) ← readI32LE s
  let (jh, s) ← readI32LE s
  let (sm, s) ← readBool s
  let (mx, s) ← readI32LE s
  let (my, s) ← readI32LE s
  some ({ r with
            screenshot_rect := (jx, jy, jw, jh), show_mask := sm,
            mask_center := (mx, my) }, s)

/-- The body of `ThemeIO.import_theme` after a valid `DD DC DD DC`
header (theme_io.py:155-198): starting from the default result record,
assign fields as they are read; skip the 10240-byte padding; consume the
optional mask image; dispatch on the background marker. -/
def importBody (s0 : List Nat) : Option TrResult := do
  let (ssi, s) ← readBool s0
  let (elem_count, s) ← readI32LE s
  let (elems, s) ← readElements elem_count.toNat s
  let (r1, s) ← importDisplayState
    { defaultTrResult with elements := elems, show_system_info := ssi } s
  let (r2, s) ← importGeometry r1 s
  let s := s.drop 10240
  let (mask_len, s) ← readI32LE s
  let s := if 0 < mask_len then s.drop mask_len.toNat else s
  let (marker, s) ← readI32LE s
  readBackground marker s { r2 with has_mask := 0 < mask_len }

/-- `ThemeIO.import_theme` header dispatch (theme_io.py:144-153): the
magic `DD DC DD DC` enters the body; a header beginning `0xDC 0xDC`
returns the default result dict; anything else raises
`ValueError("Invalid .tr file header ...")` (an `IndexError` when the
file is too short for the byte tests). -/
def import_theme (input : List Nat) : Except String TrResult :=
  if input.take 4 = [0xDD, 0xDC, 0xDD, 0xDC] then
    match importBody (input.drop 4) with
    | some r => Except.ok r
    | none => Except.error "unexpected EOF"
  else
    match input with
    | [] => Except.error "IndexError"
    | b0 :: rest =>
      if b0 = 0xDC then
        match rest with
        | [] => Except.error "IndexError"
        | b1 :: _ =>
          if b1 = 0xDC then Except.ok defaultTrResult
          else Except.error "Invalid .tr file header"
      else Except.error "Invalid .tr file header"

/-- C5 (counterexample): the claim says the alternate header `0xDC 0xDC`
raises a `FormatError`; the source instead returns the default (empty)
theme record without error, shown here at the concrete 4-byte input
`DC DC 00 00`. -/
theorem import_theme_alt_header_no_error :
    import_theme [0xDC, 0xDC, 0x00, 0x00] = Except.ok defaultTrResult := by
  rfl

/-- C5 (amended): importing a `.tr` stream whose 4-byte header is neither
`DD DC DD DC` nor starts with `0xDC 0xDC` raises a format error
(`ValueError`); the alternate `0xDC 0xDC` header is accepted and yields
the default (empty) theme record instead of an error. -/
theorem import_theme_header_dispatch (b0 b1 b2 b3 : Nat) (rest : List Nat) :
    ([b0, b1, b2, b3] ≠ [0xDD, 0xDC, 0xDD, 0xDC] →
      ¬(b0 = 0xDC ∧ b1 = 0xDC) →
      import_theme (b0 :: b1 :: b2 :: b3 :: rest) =
        Except.error "Invalid .tr file header") ∧
    (b0 = 0xDC → b1 = 0xDC →
      import_theme (b0 :: b1 :: b2 :: b3 :: rest) = Except.ok defaultTrResult) := by
  constructor
  · intro hmagic halt
    unfold import_theme
    rw [if_neg (by simpa using hmagic)]
    by_cases h0 : b0 = 0xDC
    · by_cases h1 : b1 = 0xDC
      · exact absurd ⟨h0, h1⟩ halt
      · simp only [h0, if_true, h1, if_false]
    · simp only [h0, if_false]
  · intro h0 h1
    unfold import_theme
    have hne : (b0 :: b1 :: b2 :: b3 :: rest).take 4 ≠
        [0xDD, 0xDC, 0xDD, 0xDC] := by
      simp [h0]
    rw [if_neg hne]
    simp only [h0, h1, if_true]

/-- C5 (witness for the amended theorem): the header `AA BB CC DD` errors
while `DC DC 00 00` imports the default record. -/
theorem import_theme_header_dispatch_witness :
    import_theme [0xAA, 0xBB, 0xCC, 0xDD] =
      Except.error "Invalid .tr file header" ∧
    import_theme [0xDC, 0xDC, 0x00, 0x00] = Except.ok defaultTrResult := by
  have h := import_theme_header_dispatch 0xAA 0xBB 0xCC 0xDD []
  have h2 := import_theme_header_dispatch 0xDC 0xDC 0x00 0x00 []
  exact ⟨h.1 (by decide) (by decide), h2.2 rfl rfl⟩

end TRCC
